import Mathlib

/-!
Shallow embedding, over exact rationals, of the srplasticity SRP model
(srplasticity/srp.py) together with the parts of the two figure scripts
(Scripts/fig4.py, scripts/fig8.py) that the verified properties concern.
Traces and kernels are lists of rationals; missing values (NaN) are `none`;
asserts become an `Except` error value.
-/

namespace Srp

/-- Bundle of the transcendental operations used when filling in kernel
values (numpy exp, sqrt and the constant pi); the kernel shape and length
do not depend on them, so they are kept abstract. -/
structure NumOps where
  exp : ℚ → ℚ
  sqrt : ℚ → ℚ
  pi : ℚ

/-- np.arange(0, T, dt): the grid 0, dt, 2·dt, …, of length ⌈T/dt⌉. -/
def arange0 (T dt : ℚ) : List ℚ :=
  List.map (fun i : ℕ => (i : ℚ) * dt) (List.range (Int.toNat ⌈T / dt⌉))

/-- np.roll(x, 1): move the last entry to the front. -/
def np_roll1 (xs : List ℚ) : List ℚ :=
  match xs.getLast? with
  | none => []
  | some l => l :: xs.dropLast

/-- The assignment spktr[0] = 0 (srp.py line 28). -/
def zeroFirst : List ℚ → List ℚ
  | [] => []
  | _ :: t => 0 :: t

/-- One output sample of scipy.signal.lfilter(b, 1, x):
y[n] = sum over k of b[k]·x[n−k]. -/
def lfilterEntry (b x : List ℚ) (n : ℕ) : ℚ :=
  ∑ k ∈ Finset.range (n + 1), b.getD k 0 * x.getD (n - k) 0

/-- scipy.signal.lfilter(b, 1, x): causal FIR filter, output length = input
length, zero initial state. -/
def lfilter (b x : List ℚ) : List ℚ :=
  (List.range x.length).map (lfilterEntry b x)

/-- srp.py lines 25-29: shift the spike train by one step, zero the first
sample, then filter it with the kernel. -/
def convolve_spiketrain_with_kernel (spiketrain kernel : List ℚ) : List ℚ :=
  lfilter kernel (zeroFirst (np_roll1 spiketrain))

/-- A spike train of length L with a single spike at index i. -/
def singleSpike (L i : ℕ) : List ℚ :=
  (List.range L).map (fun j => if j = i then 1 else 0)

/-- Failure of a constructor: an assert (InvalidInput), or np.max applied
to an empty array when defaulting T. -/
inductive SRPErr where
  | invalidInput
  | emptyMax
  deriving DecidableEq

/-- Shared kernel record (EfficiencyKernel): duration, timestep, kernel array. -/
structure EffKernel where
  T : ℚ
  dt : ℚ
  kernel : List ℚ

/-- np.max of a list (meaningful on nonempty lists; the default 0 is never
consulted at any call site). -/
def npMax (l : List ℚ) : ℚ := l.maximum.unbot' 0

/-- One normalized gaussian component a·exp(−(t−μ)²/2σ²)/√(2πσ²)
(srp.py lines 102-106). -/
def gaussComponent (ops : NumOps) (a mu sig t : ℚ) : ℚ :=
  a * ops.exp (-((t - mu) ^ 2) / 2 / sig ^ 2) / ops.sqrt (2 * ops.pi * sig ^ 2)

/-- GaussianKernel._construct_kernel (srp.py lines 87-108): per-component
gaussian curves over the time grid, summed elementwise. -/
def gaussConstruct (ops : NumOps) (amps mus sigmas : List ℚ) (T dt : ℚ) : EffKernel :=
  { T := T, dt := dt,
    kernel := (arange0 T dt).map (fun t =>
      ((amps.zip (mus.zip sigmas)).map (fun p => gaussComponent ops p.1 p.2.1 p.2.2 t)).sum) }

/-- GaussianKernel.__init__ (srp.py lines 60-85): assert equal parameter
counts, default T to max(mus)+5·max(sigmas) when absent, then construct. -/
def mkGaussianKernel (ops : NumOps) (amps mus sigmas : List ℚ)
    (Topt : Option ℚ) (dt : ℚ) : Except SRPErr EffKernel :=
  if amps.length = mus.length ∧ mus.length = sigmas.length then
    match Topt with
    | some T => .ok (gaussConstruct ops amps mus sigmas T dt)
    | none =>
      if mus = [] ∨ sigmas = [] then .error .emptyMax
      else .ok (gaussConstruct ops amps mus sigmas (npMax mus + 5 * npMax sigmas) dt)
  else .error .invalidInput

/-- One exponential component a/τ·exp(−t/τ) (srp.py line 157). -/
def expComponent (ops : NumOps) (a tau t : ℚ) : ℚ := a / tau * ops.exp (-t / tau)

/-- ExponentialKernel._construct_kernel (srp.py lines 143-159). -/
def expConstruct (ops : NumOps) (amps taus : List ℚ) (T dt : ℚ) : EffKernel :=
  { T := T, dt := dt,
    kernel := (arange0 T dt).map (fun t =>
      ((amps.zip taus).map (fun p => expComponent ops p.1 p.2 t)).sum) }

/-- ExponentialKernel.__init__ (srp.py lines 117-141): default amps to all
ones when absent, otherwise assert matching lengths; default T to 10·max(taus)
when absent, then construct. -/
def mkExponentialKernel (ops : NumOps) (taus : List ℚ) (ampsOpt : Option (List ℚ))
    (Topt : Option ℚ) (dt : ℚ) : Except SRPErr EffKernel :=
  match ampsOpt with
  | none =>
    match Topt with
    | some T => .ok (expConstruct ops (List.replicate taus.length 1) taus T dt)
    | none =>
      if taus = [] then .error .emptyMax
      else .ok (expConstruct ops (List.replicate taus.length 1) taus (10 * npMax taus) dt)
  | some amps =>
    if taus.length = amps.length then
      match Topt with
      | some T => .ok (expConstruct ops amps taus T dt)
      | none =>
        if taus = [] then .error .emptyMax
        else .ok (expConstruct ops amps taus (10 * npMax taus) dt)
    else .error .invalidInput

/-- Deterministic SRP model state (result of DetSRP.__init__). -/
structure DetSRP where
  dt : ℚ
  nlin : ℚ → ℚ
  mu_baseline : ℚ
  mu_kernel : List ℚ

/-- The kernel argument of the model constructors: either a raw array or an
EfficiencyKernel instance. -/
inductive KernelArg where
  | arr (k : List ℚ)
  | obj (k : EffKernel)

/-- DetSRP.__init__ (srp.py lines 170-189): for a kernel object the model
timestep must equal the kernel timestep, else InvalidInput. -/
def mkDetSRP (kernel : KernelArg) (baseline : ℚ) (nlin : ℚ → ℚ) (dt : ℚ) :
    Except SRPErr DetSRP :=
  match kernel with
  | .obj k => if dt = k.dt then .ok ⟨dt, nlin, baseline, k.kernel⟩ else .error .invalidInput
  | .arr k => .ok ⟨dt, nlin, baseline, k⟩

/-- np.where(spiketrain == 1)[0]: the indices carrying a spike. -/
def spikeIndices (s : List ℚ) : List ℕ :=
  (List.range s.length).filter (fun i => s.getD i 0 = 1)

/-- The two return shapes of DetSRP.run: a (efficacytrain, efficacies) pair,
or the full dictionary. -/
inductive RunResult where
  | compact (efficacytrain efficacies : List ℚ)
  | full (filtered_spiketrain nonlinear_readout efficacytrain efficacies : List ℚ)

/-- DetSRP.run (srp.py lines 191-209). -/
def DetSRP.run (m : DetSRP) (spiketrain : List ℚ) (return_all : Bool) : RunResult :=
  let filtered_spiketrain :=
    (convolve_spiketrain_with_kernel spiketrain m.mu_kernel).map (fun v => m.mu_baseline + v)
  let nonlinear_readout := filtered_spiketrain.map m.nlin
  let efficacytrain := List.zipWith (fun a b => a * b) nonlinear_readout spiketrain
  let efficacies := (spikeIndices spiketrain).map (fun i => efficacytrain.getD i 0)
  if return_all then
    .full filtered_spiketrain nonlinear_readout efficacytrain efficacies
  else
    .compact efficacytrain efficacies

/-- Probabilistic SRP model state (result of ProbSRP.__init__); sigma_baseline
keeps the missing-value sentinel None when it was never assigned a number. -/
structure ProbSRP where
  dt : ℚ
  nlin : ℚ → ℚ
  mu_baseline : ℚ
  mu_kernel : List ℚ
  sigma_kernel : List ℚ
  sigma_baseline : Option ℚ

/-- ProbSRP.__init__ (srp.py lines 213-241): when sigma_kernel is absent both
sigma parameters default to the mean ones; otherwise sigma_baseline is stored
exactly as passed (possibly None). -/
def mkProbSRP (mu_kernel : KernelArg) (mu_baseline : ℚ)
    (sigma_kernel : Option KernelArg) (sigma_baseline : Option ℚ)
    (nlin : ℚ → ℚ) (dt : ℚ) : Except SRPErr ProbSRP :=
  match mkDetSRP mu_kernel mu_baseline nlin dt with
  | .error e => .error e
  | .ok base =>
    match sigma_kernel with
    | none => .ok ⟨base.dt, base.nlin, base.mu_baseline, base.mu_kernel,
                   base.mu_kernel, some base.mu_baseline⟩
    | some (.obj k) =>
      if dt = k.dt then
        .ok ⟨base.dt, base.nlin, base.mu_baseline, base.mu_kernel, k.kernel, sigma_baseline⟩
      else .error .invalidInput
    | some (.arr k) =>
      .ok ⟨base.dt, base.nlin, base.mu_baseline, base.mu_kernel, k, sigma_baseline⟩

/-- The mean trace computed inside ProbSRP.run_spiketrain (srp.py lines
248-251): nlin(mu_baseline + conv(spiketrain, mu_kernel)) · spiketrain. -/
def ProbSRP.meanTrace (m : ProbSRP) (s : List ℚ) : List ℚ :=
  List.zipWith (fun a b => a * b)
    (((convolve_spiketrain_with_kernel s m.mu_kernel).map (fun v => m.mu_baseline + v)).map
      m.nlin)
    s

/-- The sigma trace computed inside ProbSRP.run_spiketrain (srp.py lines
252-255); the source text there also reads mu_baseline and mu_kernel, not the
stored sigma_baseline and sigma_kernel. -/
def ProbSRP.sigmaTrace (m : ProbSRP) (s : List ℚ) : List ℚ :=
  List.zipWith (fun a b => a * b)
    (((convolve_spiketrain_with_kernel s m.mu_kernel).map (fun v => m.mu_baseline + v)).map
      m.nlin)
    s

/-! ### fig8.py definitions -/

/-- The keys of protocol_names in dictionary order (fig8.py lines 47-55). -/
def protocol_names_keys : List String :=
  ["100", "20", "111", "20100", "10100", "10020", "invivo"]

/-- get_train_dict (fig8.py lines 134-139): all protocols except the test key,
each mapped to its unchanged value in targets. -/
def get_train_dict {α : Type} (targets : String → α) (test_key : String) :
    List (String × α) :=
  (protocol_names_keys.filter (fun k => k ≠ test_key)).map (fun k => (k, targets k))

/-- numpy broadcast subtraction targets − estimate on one row, with NaN
(missing) propagation. -/
def nanSubRow (row : List (Option ℚ)) (estimate : List ℚ) : List (Option ℚ) :=
  List.zipWith (fun t e => t.map (fun v => v - e)) row estimate

/-- Elementwise squaring with NaN propagation. -/
def nanSq (m : List (List (Option ℚ))) : List (List (Option ℚ)) :=
  m.map (fun row => row.map (Option.map (fun v => v ^ 2)))

/-- np.nansum over a 2-D array: the sum of all non-NaN entries. -/
def nansum2 (m : List (List (Option ℚ))) : ℚ :=
  (m.map (fun row => (row.filterMap id).sum)).sum

/-- np.count_nonzero(~np.isnan(targets)): number of non-NaN entries. -/
def countNonNan (m : List (List (Option ℚ))) : ℕ :=
  (m.map (fun row => (row.filterMap id).length)).sum

/-- mse (fig8.py lines 104-110): nansum((targets − estimate)²) divided,
without any guard, by the count of non-NaN target entries. -/
def mse (targets : List (List (Option ℚ))) (estimate : List ℚ) : ℚ :=
  nansum2 (nanSq (targets.map (fun row => nanSubRow row estimate))) /
    (countNonNan targets : ℚ)

/-- Stated from the spec for comparison with mse: the contribution of entry j
of one target row — (target − estimate)² when present, 0 when missing. -/
def specCell (row : List (Option ℚ)) (e : List ℚ) (j : ℕ) : ℚ :=
  match row.getD j none with
  | some v => (v - e.getD j 0) ^ 2
  | none => 0

/-- Stated from the spec for comparison with mse: whether entry j of one
target row is non-missing, as 1 or 0. -/
def specCellCount (row : List (Option ℚ)) (j : ℕ) : ℕ :=
  match row.getD j none with
  | some _ => 1
  | none => 0

/-- Stated from the spec for comparison with mse: the sum over non-missing
target entries of (target − estimate)². -/
def mseSpecNum (targets : List (List (Option ℚ))) (estimate : List ℚ) : ℚ :=
  ∑ i ∈ Finset.range targets.length, ∑ j ∈ Finset.range estimate.length,
    specCell (targets.getD i []) estimate j

/-- Stated from the spec for comparison with mse: the count of non-missing
target entries. -/
def mseSpecCount (targets : List (List (Option ℚ))) (estimate : List ℚ) : ℕ :=
  ∑ i ∈ Finset.range targets.length, ∑ j ∈ Finset.range estimate.length,
    specCellCount (targets.getD i []) j

/-- Stated from the spec for comparison with mse: spec 4.8 mean squared error. -/
def mseSpec (targets : List (List (Option ℚ))) (estimate : List ℚ) : ℚ :=
  mseSpecNum targets estimate / (mseSpecCount targets estimate : ℚ)

/-! ### fig4.py definitions -/

/-- The burst-only spike train of fig4.py line 78: spikes at samples
4000, 5000, …, 11000. -/
def spktrBurst : ℕ → ℚ := fun n =>
  if n ∈ [4000, 5000, 6000, 7000, 8000, 9000, 10000, 11000] then 1 else 0

/-- fig4.py lines 87-88: the burst train with one extra test spike at sample
12000 + testspike. -/
def trainWithTest (testspike : ℕ) : ℕ → ℚ := fun n =>
  if n = 12000 + testspike then 1 else spktrBurst n

/-- Trange = np.arange(1500, 125000, 5000) (fig4.py line 82). -/
def Trange : List ℕ := (List.range 25).map (fun i => 1500 + 5000 * i)

/-- res[:12000].max(): the maximum of a readout trace over its first 12000
samples (fig4.py line 92). -/
def burstMaxOf (res : ℕ → ℚ) : ℚ := npMax ((List.range 12000).map res)

/-- Modelled from the spec: fig4.py evaluates lateSTF.run(train)['nl_readout']
where lateSTF = det_gaussian(...) comes from the LNLmodel module, which is not
part of this excerpt; spec §4.4 specifies only that run yields a
nonlinear-readout trace for a given spike train. The readout is therefore kept
abstract as a function from spike trains to traces. -/
def Fig4Readout : Type := (ℕ → ℚ) → ℕ → ℚ

/-- The body of the fig4.py delay-sweep loop (lines 86-95): for one testspike
delay it returns the recorded pair (ratio, ratio_burstmax), reading the
readout at sample 12001 + testspike, at sample 0, and its maximum over the
first 12000 samples. -/
def sweepBody (nl_readout : Fig4Readout) (testspike : ℕ) : ℚ × ℚ :=
  let train := trainWithTest testspike
  let res := nl_readout train
  let uctl := res 0
  let burstmax := burstMaxOf res
  let ulate := res (12001 + testspike)
  (ulate / uctl, ulate / burstmax)

/-! ### Helper lemmas about the convolution step -/

theorem getD_singleSpike (L i n : ℕ) :
    (singleSpike L i).getD n 0 = if n = i ∧ n < L then 1 else 0 := by
  simp only [singleSpike, List.getD_eq_getElem?_getD, List.getElem?_map]
  by_cases h : n < L
  · rw [List.getElem?_range h]
    by_cases hi : n = i
    · subst hi
      simp [h]
    · simp [hi]
  · have hnone : (List.range L)[n]? = none := by
      simp only [List.getElem?_eq_none_iff, List.length_range]; omega
    have : ¬ (n = i ∧ n < L) := by omega
    simp [hnone, this]

theorem zeroFirst_np_roll1 (s : List ℚ) (h : s ≠ []) :
    zeroFirst (np_roll1 s) = 0 :: s.dropLast := by
  obtain ⟨l, hl⟩ := Option.isSome_iff_exists.mp
    ((List.getLast?_isSome (l := s)).mpr h)
  simp [np_roll1, hl, zeroFirst]

theorem zeroFirst_roll_singleSpike (L i : ℕ) (hL : 0 < L) :
    zeroFirst (np_roll1 (singleSpike L i)) = 0 :: singleSpike (L - 1) i := by
  have hne : singleSpike L i ≠ [] := by
    simp only [singleSpike, ne_eq, List.map_eq_nil_iff, List.range_eq_nil]
    omega
  rw [zeroFirst_np_roll1 _ hne]
  obtain ⟨M, rfl⟩ : ∃ M, L = M + 1 := ⟨L - 1, by omega⟩
  simp [singleSpike, ← List.map_dropLast, List.range_succ]

theorem shifted_getD (L i n : ℕ) (hL : 0 < L) :
    (zeroFirst (np_roll1 (singleSpike L i))).getD n 0
      = if n = i + 1 ∧ n < L then 1 else 0 := by
  rw [zeroFirst_roll_singleSpike L i hL]
  cases n with
  | zero => simp
  | succ m =>
    rw [List.getD_cons_succ, getD_singleSpike]
    have hiff : (m = i ∧ m < L - 1) ↔ (m + 1 = i + 1 ∧ m + 1 < L) := by omega
    rw [if_congr hiff rfl rfl]

theorem lfilterEntry_impulse (b x : List ℚ) (j : ℕ)
    (hx : ∀ m, x.getD m 0 = if m = j then 1 else 0) (n : ℕ) :
    lfilterEntry b x n = if j ≤ n then b.getD (n - j) 0 else 0 := by
  unfold lfilterEntry
  by_cases hj : j ≤ n
  · rw [Finset.sum_eq_single (n - j)]
    · have hnj : n - (n - j) = j := by omega
      rw [hnj, hx]
      simp [hj]
    · intro k hk hkne
      rw [hx]
      have hne : n - k ≠ j := by
        simp only [Finset.mem_range] at hk
        omega
      simp [hne]
    · intro habs
      exact absurd (Finset.mem_range.mpr (by omega)) habs
  · rw [Finset.sum_eq_zero, if_neg hj]
    intro k hk
    rw [hx]
    have hne : n - k ≠ j := by
      simp only [Finset.mem_range] at hk
      omega
    simp [hne]

theorem lfilterEntry_zero (b x : List ℚ) (hx : ∀ m, x.getD m 0 = 0) (n : ℕ) :
    lfilterEntry b x n = 0 := by
  unfold lfilterEntry
  apply Finset.sum_eq_zero
  intro k _
  rw [hx, mul_zero]

theorem lfilter_getD (b x : List ℚ) (n : ℕ) (hn : n < x.length) :
    (lfilter b x).getD n 0 = lfilterEntry b x n := by
  simp [lfilter, List.getD_eq_getElem?_getD, List.getElem?_map, List.getElem?_range, hn]

/-! ### Unfolding lemmas for the constructors -/

theorem mkGaussianKernel_ok (ops : NumOps) (amps mus sigmas : List ℚ) (T dt : ℚ)
    (h : amps.length = mus.length ∧ mus.length = sigmas.length) :
    mkGaussianKernel ops amps mus sigmas (some T) dt
      = .ok (gaussConstruct ops amps mus sigmas T dt) := by
  unfold mkGaussianKernel
  rw [if_pos h]

theorem mkGaussianKernel_invalid (ops : NumOps) (amps mus sigmas : List ℚ)
    (Topt : Option ℚ) (dt : ℚ)
    (h : ¬ (amps.length = mus.length ∧ mus.length = sigmas.length)) :
    mkGaussianKernel ops amps mus sigmas Topt dt = .error .invalidInput := by
  unfold mkGaussianKernel
  rw [if_neg h]

theorem mkExponentialKernel_some_eq (ops : NumOps) (taus amps : List ℚ)
    (Topt : Option ℚ) (dt : ℚ) :
    mkExponentialKernel ops taus (some amps) Topt dt
      = if taus.length = amps.length then
          (match Topt with
            | some T => Except.ok (expConstruct ops amps taus T dt)
            | none =>
              if taus = [] then Except.error SRPErr.emptyMax
              else Except.ok (expConstruct ops amps taus (10 * npMax taus) dt))
        else Except.error SRPErr.invalidInput := rfl

theorem mkExponentialKernel_none_eq (ops : NumOps) (taus : List ℚ)
    (Topt : Option ℚ) (dt : ℚ) :
    mkExponentialKernel ops taus none Topt dt
      = match Topt with
        | some T => Except.ok (expConstruct ops (List.replicate taus.length 1) taus T dt)
        | none =>
          if taus = [] then Except.error SRPErr.emptyMax
          else Except.ok
            (expConstruct ops (List.replicate taus.length 1) taus (10 * npMax taus) dt) := rfl

theorem mkDetSRP_obj_eq (ek : EffKernel) (baseline : ℚ) (nlin : ℚ → ℚ) (dt : ℚ) :
    mkDetSRP (.obj ek) baseline nlin dt
      = if dt = ek.dt then Except.ok ⟨dt, nlin, baseline, ek.kernel⟩
        else Except.error SRPErr.invalidInput := rfl

/-! ### Claim theorems -/

/-- Claim C1: for every spike train, ProbSRP.run_spiketrain derives both the
mean trace and the sigma trace from the mean kernel and mean baseline via the
deterministic pipeline; the stored sigma_kernel and sigma_baseline (arbitrary
here on both sides) are never consulted, so the two traces are equal. The
traces are independent of ntrials, which only governs the later sampling. -/
theorem run_spiketrain_sigma_eq_mean (dt : ℚ) (nlin : ℚ → ℚ) (mu_b : ℚ)
    (mu_k sk sk' : List ℚ) (sb sb' : Option ℚ) (s : List ℚ) :
    ProbSRP.sigmaTrace ⟨dt, nlin, mu_b, mu_k, sk, sb⟩ s
      = ProbSRP.meanTrace ⟨dt, nlin, mu_b, mu_k, sk', sb'⟩ s := rfl

/-- Claim C7: the deterministic model's two return modes agree: the pair
returned with return_all = false consists exactly of the efficacy-train and
efficacies fields of the full mapping returned with return_all = true. -/
theorem run_return_modes_agree (m : DetSRP) (s : List ℚ) :
    ∃ fs nl et ef, m.run s true = RunResult.full fs nl et ef ∧
      m.run s false = RunResult.compact et ef :=
  ⟨_, _, _, _, rfl, rfl⟩

/-- Claim C5: the convolution step shifts the spike train forward by one
timestep and forces the first sample to zero: the filtered trace always starts
at 0, and for a single isolated spike at index i the filtered trace is 0 at
every index up to and including i and equals the kernel shifted to i+1 beyond
it, so the spike contributes starting at index i+1 and never at index i. -/
theorem convolve_causality :
    (∀ (s k : List ℚ), (convolve_spiketrain_with_kernel s k).getD 0 0 = 0) ∧
    (∀ (L i n : ℕ) (kernel : List ℚ), i < L → n < L →
      (convolve_spiketrain_with_kernel (singleSpike L i) kernel).getD n 0 =
        if n ≤ i then 0 else kernel.getD (n - (i + 1)) 0) := by
  constructor
  · intro s k
    cases s with
    | nil =>
      simp [convolve_spiketrain_with_kernel, np_roll1, zeroFirst, lfilter]
    | cons a t =>
      unfold convolve_spiketrain_with_kernel
      rw [zeroFirst_np_roll1 _ (by simp)]
      rw [lfilter_getD _ _ 0 (by simp)]
      simp [lfilterEntry, Finset.sum_range_one]
  · intro L i n kernel hi hn
    have hL : 0 < L := by omega
    unfold convolve_spiketrain_with_kernel
    have hxlen : (zeroFirst (np_roll1 (singleSpike L i))).length = L := by
      rw [zeroFirst_roll_singleSpike L i hL]
      simp only [List.length_cons, singleSpike, List.length_map, List.length_range]
      omega
    rw [lfilter_getD _ _ n (by rw [hxlen]; exact hn)]
    by_cases hcase : i + 1 < L
    · have himp : ∀ m, (zeroFirst (np_roll1 (singleSpike L i))).getD m 0
          = if m = i + 1 then 1 else 0 := by
        intro m
        rw [shifted_getD L i m hL]
        by_cases hm : m = i + 1
        · simp [hm, hcase]
        · simp [hm]
      rw [lfilterEntry_impulse kernel _ (i + 1) himp n]
      split_ifs with h1 h2 h2 <;> first | rfl | omega
    · have hzero : ∀ m, (zeroFirst (np_roll1 (singleSpike L i))).getD m 0 = 0 := by
        intro m
        rw [shifted_getD L i m hL]
        have hno : ¬ (m = i + 1 ∧ m < L) := by omega
        simp [hno]
      rw [lfilterEntry_zero kernel _ hzero n]
      have hni : n ≤ i := by omega
      simp [hni]

/-- Claim C9: constructing the probabilistic model with an explicit
sigma_kernel but no sigma_baseline stores the missing-value sentinel in
sigma_baseline; the baseline is defaulted to the mean baseline exactly when
the sigma kernel itself is omitted. -/
theorem prob_sigma_baseline_default (mu_kernel : KernelArg) (mu_baseline : ℚ)
    (nlin : ℚ → ℚ) (dt : ℚ) :
    (∀ (sk : KernelArg) (m : ProbSRP),
      mkProbSRP mu_kernel mu_baseline (some sk) none nlin dt = .ok m →
        m.sigma_baseline = none) ∧
    (∀ (sb : Option ℚ) (m : ProbSRP),
      mkProbSRP mu_kernel mu_baseline none sb nlin dt = .ok m →
        m.sigma_baseline = some m.mu_baseline) := by
  constructor
  · intro sk m h
    unfold mkProbSRP at h
    cases hbase : mkDetSRP mu_kernel mu_baseline nlin dt with
    | error e => rw [hbase] at h; exact absurd h (by simp)
    | ok base =>
      rw [hbase] at h
      cases sk with
      | arr k =>
        simp only [Except.ok.injEq] at h
        rw [← h]
      | obj k =>
        by_cases hdt : dt = k.dt
        · simp [hdt] at h
          rw [← h]
        · simp [hdt] at h
  · intro sb m h
    unfold mkProbSRP at h
    cases hbase : mkDetSRP mu_kernel mu_baseline nlin dt with
    | error e => rw [hbase] at h; exact absurd h (by simp)
    | ok base =>
      rw [hbase] at h
      simp only [Except.ok.injEq] at h
      rw [← h]

/-- Witness for C9: an explicit sigma kernel with omitted sigma baseline
leaves the sentinel; an omitted sigma kernel copies the mean baseline even
when a sigma baseline value was passed. -/
theorem prob_sigma_baseline_default_witness :
    (ProbSRP.mk 1 (fun x => x) 2 [1] [3] none).sigma_baseline = none ∧
    (ProbSRP.mk 1 (fun x => x) 2 [1] [1] (some 2)).sigma_baseline = some 2 :=
  ⟨(prob_sigma_baseline_default (.arr [1]) 2 (fun x => x) 1).1 (.arr [3])
      (ProbSRP.mk 1 (fun x => x) 2 [1] [3] none) rfl,
   (prob_sigma_baseline_default (.arr [1]) 2 (fun x => x) 1).2 (some 99)
      (ProbSRP.mk 1 (fun x => x) 2 [1] [1] (some 2)) rfl⟩

/-- Claim C8: the kernel constructors fail with InvalidInput exactly when the
component-parameter arrays have unequal lengths (amps/mus/sigmas for the
gaussian kernel; taus/amps for the exponential kernel when amps is supplied),
the model constructor fails with InvalidInput exactly when given a kernel
object whose timestep differs from the model's, and on valid inputs (equal
lengths, duration supplied, matching timestep) each constructor succeeds. -/
theorem invalid_input_characterization (ops : NumOps) :
    (∀ (amps mus sigmas : List ℚ) (Topt : Option ℚ) (dt : ℚ),
      mkGaussianKernel ops amps mus sigmas Topt dt = .error .invalidInput ↔
        ¬ (amps.length = mus.length ∧ mus.length = sigmas.length)) ∧
    (∀ (taus : List ℚ) (ampsOpt : Option (List ℚ)) (Topt : Option ℚ) (dt : ℚ),
      mkExponentialKernel ops taus ampsOpt Topt dt = .error .invalidInput ↔
        (∃ amps, ampsOpt = some amps ∧ taus.length ≠ amps.length)) ∧
    (∀ (kernel : KernelArg) (baseline : ℚ) (nlin : ℚ → ℚ) (dt : ℚ),
      mkDetSRP kernel baseline nlin dt = .error .invalidInput ↔
        (∃ ek, kernel = KernelArg.obj ek ∧ dt ≠ ek.dt)) ∧
    (∀ (amps mus sigmas : List ℚ) (T dt : ℚ),
      amps.length = mus.length → mus.length = sigmas.length →
      mkGaussianKernel ops amps mus sigmas (some T) dt
        = .ok (gaussConstruct ops amps mus sigmas T dt)) ∧
    (∀ (taus amps : List ℚ) (T dt : ℚ), taus.length = amps.length →
      mkExponentialKernel ops taus (some amps) (some T) dt
        = .ok (expConstruct ops amps taus T dt)) ∧
    (∀ (k : List ℚ) (baseline : ℚ) (nlin : ℚ → ℚ) (dt : ℚ),
      mkDetSRP (.arr k) baseline nlin dt = .ok ⟨dt, nlin, baseline, k⟩) ∧
    (∀ (ek : EffKernel) (baseline : ℚ) (nlin : ℚ → ℚ),
      mkDetSRP (.obj ek) baseline nlin ek.dt = .ok ⟨ek.dt, nlin, baseline, ek.kernel⟩) := by
  refine ⟨?_, ?_, ?_, ?_, ?_, ?_, ?_⟩
  · intro amps mus sigmas Topt dt
    unfold mkGaussianKernel
    by_cases h : amps.length = mus.length ∧ mus.length = sigmas.length
    · rw [if_pos h]
      cases Topt with
      | some T => simp [h]
      | none => split_ifs <;> simp [h]
    · rw [if_neg h]
      simp [h]
  · intro taus ampsOpt Topt dt
    cases ampsOpt with
    | none =>
      rw [mkExponentialKernel_none_eq]
      cases Topt with
      | some T => simp
      | none => split_ifs <;> simp
    | some amps =>
      rw [mkExponentialKernel_some_eq]
      by_cases h : taus.length = amps.length
      · rw [if_pos h]
        cases Topt with
        | some T => simp [h]
        | none => split_ifs <;> simp [h]
      · rw [if_neg h]
        constructor
        · intro _
          exact ⟨amps, rfl, h⟩
        · intro _
          rfl
  · intro kernel baseline nlin dt
    cases kernel with
    | arr k => simp [mkDetSRP]
    | obj k =>
      rw [mkDetSRP_obj_eq]
      by_cases hdt : dt = k.dt
      · rw [if_pos hdt]
        constructor
        · intro habs
          exact absurd habs (by simp)
        · rintro ⟨ek, hek, hne⟩
          injection hek with hek
          exact absurd (hek ▸ hdt) hne
      · rw [if_neg hdt]
        exact ⟨fun _ => ⟨k, rfl, hdt⟩, fun _ => rfl⟩
  · intro amps mus sigmas T dt h1 h2
    exact mkGaussianKernel_ok ops amps mus sigmas T dt ⟨h1, h2⟩
  · intro taus amps T dt h
    rw [mkExponentialKernel_some_eq, if_pos h]
  · intro k baseline nlin dt
    rfl
  · intro ek baseline nlin
    rw [mkDetSRP_obj_eq, if_pos rfl]

/-- Witness for C8: a gaussian kernel with matching parameter counts and a
supplied duration is constructed without error. -/
theorem invalid_input_characterization_witness :
    mkGaussianKernel ⟨id, id, 0⟩ [1] [0] [1] (some 10) 1
      = .ok (gaussConstruct ⟨id, id, 0⟩ [1] [0] [1] 10 1) :=
  (invalid_input_characterization ⟨id, id, 0⟩).2.2.2.1 [1] [0] [1] 10 1 rfl rfl

/-- Claim C4: for every held-out key among the seven named protocols, the
training-set construction returns exactly the other six protocols, each mapped
to its unchanged value in the targets mapping. -/
theorem get_train_dict_spec {α : Type} (targets : String → α) (tk : String)
    (h : tk ∈ protocol_names_keys) :
    (get_train_dict targets tk).length = 6 ∧
    (∀ k v, (k, v) ∈ get_train_dict targets tk ↔
      (k ∈ protocol_names_keys ∧ k ≠ tk ∧ v = targets k)) := by
  constructor
  · simp only [get_train_dict, List.length_map]
    simp only [protocol_names_keys, List.mem_cons, List.not_mem_nil, or_false] at h
    rcases h with rfl | rfl | rfl | rfl | rfl | rfl | rfl <;> decide
  · intro k v
    simp only [get_train_dict, List.mem_map, List.mem_filter, decide_eq_true_eq, ne_eq]
    constructor
    · rintro ⟨a, ⟨ha, hne⟩, heq⟩
      injection heq with h1 h2
      subst h1
      subst h2
      exact ⟨ha, hne, rfl⟩
    · rintro ⟨hk, hne, rfl⟩
      exact ⟨k, ⟨hk, hne⟩, rfl⟩

/-- Witness for C4 with the held-out key invivo and a constant targets map. -/
theorem get_train_dict_spec_witness :
    (get_train_dict (fun _ => (0 : ℚ)) "invivo").length = 6 ∧
    (∀ k v, (k, v) ∈ get_train_dict (fun _ => (0 : ℚ)) "invivo" ↔
      (k ∈ protocol_names_keys ∧ k ≠ "invivo" ∧ v = 0)) :=
  get_train_dict_spec (fun _ => (0 : ℚ)) "invivo" (by decide)

/-- Counterexample to C3 as stated: for the gaussian constructor with
T = 21/20 and dt = 1/10 the resulting kernel has 11 entries, while
floor(T/dt) = floor(10.5) = 10. -/
theorem kernel_length_floor_cex :
    mkGaussianKernel ⟨id, id, 0⟩ [1] [0] [1] (some (21 / 20)) (1 / 10)
        = .ok (gaussConstruct ⟨id, id, 0⟩ [1] [0] [1] (21 / 20) (1 / 10)) ∧
    (gaussConstruct ⟨id, id, 0⟩ [1] [0] [1] (21 / 20) (1 / 10)).kernel.length
        ≠ (⌊(21 / 20 : ℚ) / (1 / 10 : ℚ)⌋).toNat := by
  constructor
  · rfl
  · have hq : (21 / 20 : ℚ) / (1 / 10 : ℚ) = 10.5 := by norm_num
    have hceil : ⌈(10.5 : ℚ)⌉ = 11 := by norm_num [Int.ceil_eq_iff]
    have hfloor : ⌊(10.5 : ℚ)⌋ = 10 := by norm_num [Int.floor_eq_iff]
    simp only [gaussConstruct, arange0, List.length_map, List.length_range, hq,
      hceil, hfloor]
    decide

/-- Claim C3 amended: for positive T and dt supplied to either kernel
constructor, the resulting kernel array has length exactly ⌈T/dt⌉ — the number
of points of the arange time grid — which equals floor(T/dt) only when T/dt is
an integer. -/
theorem kernel_length_ceil (ops : NumOps) :
    (∀ (amps mus sigmas : List ℚ) (T dt : ℚ) (k : EffKernel), 0 < T → 0 < dt →
      mkGaussianKernel ops amps mus sigmas (some T) dt = .ok k →
        k.kernel.length = (⌈T / dt⌉).toNat) ∧
    (∀ (taus : List ℚ) (ampsOpt : Option (List ℚ)) (T dt : ℚ) (k : EffKernel),
      0 < T → 0 < dt →
      mkExponentialKernel ops taus ampsOpt (some T) dt = .ok k →
        k.kernel.length = (⌈T / dt⌉).toNat) := by
  constructor
  · intro amps mus sigmas T dt k _ _ h
    by_cases hlen : amps.length = mus.length ∧ mus.length = sigmas.length
    · rw [mkGaussianKernel_ok ops amps mus sigmas T dt hlen] at h
      simp only [Except.ok.injEq] at h
      rw [← h]
      simp only [gaussConstruct, arange0, List.length_map, List.length_range]
    · rw [mkGaussianKernel_invalid ops amps mus sigmas (some T) dt hlen] at h
      exact Except.noConfusion h
  · intro taus ampsOpt T dt k _ _ h
    cases ampsOpt with
    | none =>
      rw [mkExponentialKernel_none_eq] at h
      simp only [Except.ok.injEq] at h
      rw [← h]
      simp only [expConstruct, arange0, List.length_map, List.length_range]
    | some amps =>
      rw [mkExponentialKernel_some_eq] at h
      by_cases hlen : taus.length = amps.length
      · rw [if_pos hlen] at h
        simp only [Except.ok.injEq] at h
        rw [← h]
        simp only [expConstruct, arange0, List.length_map, List.length_range]
      · rw [if_neg hlen] at h
        exact Except.noConfusion h

/-- Witness for C3 with T = 10, dt = 1 and a single gaussian component. -/
theorem kernel_length_ceil_witness :
    (0 : ℚ) < 10 ∧ (0 : ℚ) < 1 ∧
    (gaussConstruct ⟨id, id, 0⟩ [1] [0] [1] 10 1).kernel.length
      = (⌈(10 : ℚ) / 1⌉).toNat :=
  ⟨by norm_num, by norm_num,
    (kernel_length_ceil ⟨id, id, 0⟩).1 [1] [0] [1] 10 1
      (gaussConstruct ⟨id, id, 0⟩ [1] [0] [1] 10 1)
      (by norm_num) (by norm_num) rfl⟩

/-- Witness for C5 at L = 5, i = 2, n = 3 with kernel [4, 7]. -/
theorem convolve_causality_witness :
    (2 : ℕ) < 5 ∧ (3 : ℕ) < 5 ∧
    (convolve_spiketrain_with_kernel (singleSpike 5 2) [4, 7]).getD 3 0 =
      if (3 : ℕ) ≤ 2 then 0 else ([4, 7] : List ℚ).getD (3 - (2 + 1)) 0 :=
  ⟨by decide, by decide,
    convolve_causality.2 5 2 3 [4, 7] (by decide) (by decide)⟩

/-! ### Helper lemmas about mse -/

theorem specCell_cons_succ (a : Option ℚ) (row : List (Option ℚ)) (x : ℚ)
    (e' : List ℚ) (j : ℕ) :
    specCell (a :: row) (x :: e') (j + 1) = specCell row e' j := rfl

theorem specCellCount_cons_succ (a : Option ℚ) (row : List (Option ℚ)) (j : ℕ) :
    specCellCount (a :: row) (j + 1) = specCellCount row j := rfl

theorem row_nansum_eq (row : List (Option ℚ)) (e : List ℚ) :
    (((nanSubRow row e).map (Option.map (fun v => v ^ 2))).filterMap id).sum
      = ∑ j ∈ Finset.range e.length, specCell row e j := by
  induction row generalizing e with
  | nil =>
    have hz : ∀ j ∈ Finset.range e.length, specCell [] e j = 0 := fun j _ => rfl
    rw [Finset.sum_congr rfl hz]
    simp [nanSubRow]
  | cons a row ih =>
    cases e with
    | nil => simp [nanSubRow]
    | cons x e' =>
      have hsplit : (∑ j ∈ Finset.range (x :: e').length, specCell (a :: row) (x :: e') j)
          = (∑ j ∈ Finset.range e'.length, specCell row e' j)
            + specCell (a :: row) (x :: e') 0 := by
        rw [List.length_cons,
          Finset.sum_range_succ' (fun j => specCell (a :: row) (x :: e') j)]
        simp only [specCell_cons_succ]
      rw [hsplit]
      cases a with
      | none =>
        have hL : ((nanSubRow (none :: row) (x :: e')).map
              (Option.map (fun v => v ^ 2))).filterMap id
            = ((nanSubRow row e').map (Option.map (fun v => v ^ 2))).filterMap id := rfl
        rw [hL, ih e']
        have h0 : specCell (none :: row) (x :: e') 0 = 0 := rfl
        rw [h0, add_zero]
      | some v =>
        have hL : ((nanSubRow (some v :: row) (x :: e')).map
              (Option.map (fun v => v ^ 2))).filterMap id
            = ((v - x) ^ 2)
                :: ((nanSubRow row e').map (Option.map (fun v => v ^ 2))).filterMap id := rfl
        rw [hL, List.sum_cons, ih e']
        have h0 : specCell (some v :: row) (x :: e') 0 = (v - x) ^ 2 := rfl
        rw [h0]
        exact add_comm _ _

theorem row_count_eq (row : List (Option ℚ)) (e : List ℚ) (h : row.length = e.length) :
    (row.filterMap id).length = ∑ j ∈ Finset.range e.length, specCellCount row j := by
  induction row generalizing e with
  | nil =>
    simp only [List.length_nil] at h
    rw [← h]
    simp
  | cons a row ih =>
    cases e with
    | nil => simp at h
    | cons x e' =>
      simp only [List.length_cons, add_left_inj] at h
      have hsplit : (∑ j ∈ Finset.range (x :: e').length, specCellCount (a :: row) j)
          = (∑ j ∈ Finset.range e'.length, specCellCount row j)
            + specCellCount (a :: row) 0 := by
        rw [List.length_cons,
          Finset.sum_range_succ' (fun j => specCellCount (a :: row) j)]
        simp only [specCellCount_cons_succ]
      rw [hsplit]
      cases a with
      | none =>
        have hL : (List.filterMap id (none :: row)).length
            = (List.filterMap id row).length := rfl
        rw [hL, ih e' h]
        have h0 : specCellCount (none :: row) 0 = 0 := rfl
        rw [h0, add_zero]
      | some v =>
        have hL : (List.filterMap id (some v :: row)).length
            = (List.filterMap id row).length + 1 := rfl
        rw [hL, ih e' h]
        rfl

theorem mse_num_eq (targets : List (List (Option ℚ))) (e : List ℚ) :
    nansum2 (nanSq (targets.map (fun row => nanSubRow row e))) = mseSpecNum targets e := by
  induction targets with
  | nil => simp [nansum2, nanSq, mseSpecNum]
  | cons row m ih =>
    have hsplit : mseSpecNum (row :: m) e
        = mseSpecNum m e + ∑ j ∈ Finset.range e.length, specCell row e j := by
      unfold mseSpecNum
      rw [List.length_cons, Finset.sum_range_succ']
      simp only [List.getD_cons_succ, List.getD_cons_zero]
    simp only [nansum2, nanSq, List.map_cons, List.sum_cons] at ih ⊢
    rw [hsplit, ← ih, ← row_nansum_eq row e]
    exact add_comm _ _

theorem mse_count_eq (targets : List (List (Option ℚ))) (e : List ℚ)
    (h : ∀ row ∈ targets, row.length = e.length) :
    countNonNan targets = mseSpecCount targets e := by
  induction targets with
  | nil => simp [countNonNan, mseSpecCount]
  | cons row m ih =>
    have hsplit : mseSpecCount (row :: m) e
        = mseSpecCount m e + ∑ j ∈ Finset.range e.length, specCellCount row j := by
      unfold mseSpecCount
      rw [List.length_cons, Finset.sum_range_succ']
      simp only [List.getD_cons_succ, List.getD_cons_zero]
    simp only [countNonNan, List.map_cons, List.sum_cons] at ih ⊢
    rw [hsplit, ← ih (fun r hr => h r (List.mem_cons_of_mem _ hr)),
      ← row_count_eq row e (h row (List.mem_cons_self _ _))]
    exact add_comm _ _

/-- Claim C6: the mean-squared-error function equals the sum over non-missing
target entries of (target − estimate)² divided by the count of non-missing
entries, and on targets [[1, missing], [3, 4]] with estimate [2, 5] it returns
exactly 1. -/
theorem mse_spec_correct :
    mse [[some 1, none], [some 3, some 4]] [2, 5] = 1 ∧
    (∀ (targets : List (List (Option ℚ))) (estimate : List ℚ),
      (∀ row ∈ targets, row.length = estimate.length) →
      mse targets estimate = mseSpec targets estimate) := by
  constructor
  · norm_num [mse, nansum2, nanSq, nanSubRow, countNonNan, List.filterMap_cons,
      id_eq, List.filterMap_nil]
  · intro t e h
    unfold mse mseSpec
    rw [mse_num_eq, mse_count_eq t e h]

/-- Witness for C6 at a one-entry target matrix. -/
theorem mse_spec_correct_witness :
    mse [[some 1, none], [some 3, some 4]] [2, 5] = 1 ∧
    mse [[some 2]] [7] = mseSpec [[some 2]] [7] :=
  ⟨mse_spec_correct.1, mse_spec_correct.2 [[some 2]] [7] (by decide)⟩

/-- Claim C10: mse divides by the count of non-missing target entries with no
guard: for an all-missing target matrix that count is zero, and whenever at
least one target entry is non-missing the count is positive, so the
division-by-zero case is unreachable under that precondition. -/
theorem mse_denominator_guard :
    (∀ targets : List (List (Option ℚ)),
      (∀ row ∈ targets, ∀ x ∈ row, x = none) → countNonNan targets = 0) ∧
    (∀ (targets : List (List (Option ℚ))) (row : List (Option ℚ)) (x : Option ℚ),
      row ∈ targets → x ∈ row → x ≠ none → 0 < countNonNan targets) := by
  constructor
  · intro t h
    unfold countNonNan
    apply List.sum_eq_zero
    intro y hy
    obtain ⟨row, hrow, rfl⟩ := List.mem_map.mp hy
    have hnil : row.filterMap id = [] :=
      List.filterMap_eq_nil_iff.mpr (fun a ha => h row hrow a ha)
    rw [hnil]
    rfl
  · intro t row x hrow hx hxne
    obtain ⟨v, rfl⟩ := Option.ne_none_iff_exists'.mp hxne
    have hv : v ∈ row.filterMap id := List.mem_filterMap.mpr ⟨some v, hx, rfl⟩
    have hpos : 0 < (row.filterMap id).length :=
      List.length_pos.mpr (List.ne_nil_of_mem hv)
    have hle : (row.filterMap id).length
        ≤ (t.map (fun row => (row.filterMap id).length)).sum :=
      List.single_le_sum (fun y _ => Nat.zero_le y) _
        (List.mem_map_of_mem _ hrow)
    unfold countNonNan
    omega

/-- Witness for C10: an all-missing matrix has count 0; a matrix with one
present entry has positive count. -/
theorem mse_denominator_guard_witness :
    countNonNan [[none]] = 0 ∧ 0 < countNonNan [[some 1, none]] :=
  ⟨mse_denominator_guard.1 [[none]] (by decide),
   mse_denominator_guard.2 [[some 1, none]] [some 1, none] (some 1)
     (by decide) (by decide) (by decide)⟩

/-! ### Helper lemma about the fig4 burst maximum -/

theorem npMax_map_range_spec (res : ℕ → ℚ) (n : ℕ) (hn : 0 < n) :
    (∀ i < n, res i ≤ npMax ((List.range n).map res)) ∧
    (∃ i < n, npMax ((List.range n).map res) = res i) := by
  have hne : (List.range n).map res ≠ [] := by
    simp only [ne_eq, List.map_eq_nil_iff, List.range_eq_nil]
    omega
  have hbot : ((List.range n).map res).maximum ≠ ⊥ :=
    List.maximum_ne_bot_of_ne_nil hne
  obtain ⟨m, hm⟩ := WithBot.ne_bot_iff_exists.mp hbot
  have hnp : npMax ((List.range n).map res) = m := by
    rw [npMax, ← hm]
    rfl
  constructor
  · intro i hi
    have hmem : res i ∈ (List.range n).map res :=
      List.mem_map_of_mem res (List.mem_range.mpr hi)
    rw [hnp]
    exact List.le_maximum_of_mem hmem hm.symm
  · have hmmem : m ∈ (List.range n).map res := List.maximum_mem hm.symm
    obtain ⟨i, hirange, hres⟩ := List.mem_map.mp hmmem
    exact ⟨i, List.mem_range.mp hirange, by rw [hnp, ← hres]⟩

/-- Counterexample to C2 as stated: with a readout trace sending sample n to
n + 1 for every train, at the first swept delay 1500 the recorded test/control
value is the readout at sample 13501, not the readout at the test-spike sample
13500 divided by the readout at sample 0. -/
theorem fig4_test_index_cex :
    (sweepBody (fun _ n => (n : ℚ) + 1) 1500).1 ≠
      ((fun n => (n : ℚ) + 1) (12000 + 1500)) / ((fun n => (n : ℚ) + 1) 0) := by
  have hL : (sweepBody (fun _ n => (n : ℚ) + 1) 1500).1
      = ((12001 + 1500 : ℕ) : ℚ) + 1 := by
    show (((12001 + 1500 : ℕ) : ℚ) + 1) / (((0 : ℕ) : ℚ) + 1) = ((12001 + 1500 : ℕ) : ℚ) + 1
    norm_num
  rw [hL]
  norm_num

/-- Claim C2 amended: in the delay sweep, for each delay the recorded pair is
(test/control, test/burst-maximum) where the test efficacy is the readout at
sample 12001 + delay (one timestep after the test spike placed at sample
12000 + delay), the control is the readout at sample 0, and the
burst-maximum is the maximum readout over the first 12000 samples. -/
theorem fig4_sweep_ratios (nl_readout : Fig4Readout) (testspike : ℕ)
    (_h : testspike ∈ Trange) :
    (sweepBody nl_readout testspike).1
        = nl_readout (trainWithTest testspike) (12001 + testspike) /
          nl_readout (trainWithTest testspike) 0 ∧
    (sweepBody nl_readout testspike).2
        = nl_readout (trainWithTest testspike) (12001 + testspike) /
          burstMaxOf (nl_readout (trainWithTest testspike)) ∧
    (∀ i < 12000, nl_readout (trainWithTest testspike) i
        ≤ burstMaxOf (nl_readout (trainWithTest testspike))) ∧
    (∃ i < 12000, burstMaxOf (nl_readout (trainWithTest testspike))
        = nl_readout (trainWithTest testspike) i) := by
  refine ⟨rfl, rfl, ?_, ?_⟩
  · exact (npMax_map_range_spec (nl_readout (trainWithTest testspike)) 12000
      (by norm_num)).1
  · exact (npMax_map_range_spec (nl_readout (trainWithTest testspike)) 12000
      (by norm_num)).2

/-- Witness for C2 at the first swept delay with the readout n ↦ n. -/
theorem fig4_sweep_ratios_witness :
    (1500 : ℕ) ∈ Trange ∧
    (sweepBody (fun _ n => (n : ℚ)) 1500).1
      = ((12001 + 1500 : ℕ) : ℚ) / ((0 : ℕ) : ℚ) := by
  constructor
  · decide
  · exact (fig4_sweep_ratios (fun _ n => (n : ℚ)) 1500 (by decide)).1

end Srp
